import Mathlib

/-!
Verification of the moltbot-memory-sqlite storage engine.

The definitions below are a shallow embedding of src/index.ts: the in-memory
SQLite image is a list of rows, SQL predicates become boolean predicates over
rows, SQL ORDER BY becomes a stable sort, and SQL LIKE is embedded by an
executable pattern matcher. Each definition notes the source construct it
embeds. Timestamps are ISO-8601 strings compared lexicographically exactly as
SQLite compares TEXT columns (bytewise, which on UTF-8 agrees with codepoint
order). Importances are JavaScript numbers used only in comparisons, embedded
as rationals.
-/

namespace Moltbot

/-- Embedding of JavaScript `toLowerCase` as used in index.ts (characterwise
lowercasing; the texts and queries in this development are ASCII, where the
two agree). -/
def lowerStr (s : String) : String := ⟨s.data.map Char.toLower⟩

/-- Splitting a character list at every whitespace character, keeping empty
chunks.  The source splits queries with the regex \s+, which merges whitespace
runs; the two differ only in empty chunks, and every empty chunk is discarded
by the token-length filter in `queryTokens`. -/
def splitWs : List Char → List (List Char)
  | [] => [[]]
  | c :: cs =>
    match splitWs cs with
    | [] => [[]]
    | t :: ts => if c.isWhitespace then [] :: t :: ts else (c :: t) :: ts

/-- index.ts recall, line 228: lowercase the query, split on whitespace, keep
tokens of length > 1. -/
def queryTokens (q : String) : List String :=
  ((splitWs (lowerStr q).data).map (fun cs => (⟨cs⟩ : String))).filter
    (fun w => 1 < w.data.length)

/-- Helper for the `%` wildcard of SQLite LIKE: `likeSkip f t` holds iff `f`
holds on some suffix of `t` (including `t` itself and the empty suffix). -/
def likeSkip (f : List Char → Bool) : List Char → Bool
  | [] => f []
  | x :: ts => f (x :: ts) || likeSkip f ts

/-- SQLite LIKE pattern matching over characters: `%` matches any sequence,
`_` matches any single character, and any other pattern character matches
itself.  Both operands built by index.ts are already lowercased (column
text_lower and the lowercased query token), so SQLite's ASCII case folding in
LIKE coincides with plain character equality here. -/
def likeMatch : List Char → (List Char → Bool)
  | [] => fun t => t.isEmpty
  | c :: ps =>
    if c = '%' then fun t => likeSkip (likeMatch ps) t
    else fun t =>
      match t with
      | [] => false
      | x :: ts => (if c = '_' then true else c == x) && likeMatch ps ts

/-- Modelled from the spec's words: `w` is a prefix of `t` (plain character
equality, no wildcards). Used to state what the spec calls substring
matching, for comparison with the LIKE patterns the source actually builds. -/
def prefChars : List Char → List Char → Bool
  | [], _ => true
  | _ :: _, [] => false
  | a :: as, b :: bs => a == b && prefChars as bs

/-- Modelled from the spec's words: `w` occurs in `t` as a contiguous
substring (spec 4.4: "require the lowercased text to contain at least one of
the surviving tokens as a substring"). -/
def substrChars (w : List Char) : List Char → Bool
  | [] => prefChars w []
  | c :: ts => prefChars w (c :: ts) || substrChars w ts

/-- Lexicographic comparison of character lists by codepoint; this is how
SQLite compares TEXT columns (bytewise memcmp, which on UTF-8 agrees with
codepoint order). -/
def lexLE : List Char → List Char → Bool
  | [], _ => true
  | _ :: _, [] => false
  | a :: as, b :: bs => if a = b then lexLE as bs else decide (a < b)

/-- TEXT-column comparison on strings (used for created_at bounds and the
ORDER BY tie break). -/
def strLE (s t : String) : Bool := lexLE s.data t.data

/-- One row of the memories table / one record returned by the API
(index.ts Memory interface; metadata is kept in its serialized TEXT form,
opaque to the store). -/
structure Memory where
  id : String
  text : String
  textLower : String
  category : String
  importance : ℚ
  createdAt : String
  updatedAt : String
  sessionKey : Option String
  metadata : Option String
deriving DecidableEq, Repr

/-- Plugin configuration after merging over defaults (index.ts PluginConfig /
DEFAULT_CONFIG).  A noise pattern is embedded as the boolean test of its
compiled case-insensitive regular expression.  dbPath is a pure persistence
concern and is not part of the embedded state. -/
structure Config where
  maxMemories : Nat
  defaultImportance : ℚ
  noisePatterns : List (String → Bool)
  autoSaveInterval : Nat

/-- The word alternatives of the first default noise pattern
(index.ts line 77). -/
def ackWords : List String :=
  ["ok", "okay", "yes", "no", "thanks", "thank you", "sure", "got it",
   "cool", "nice", "great"]

/-- Test of the compiled default pattern (ok|okay|...) anchored by both ends
with the i flag: the whole text, case-insensitively, is one of the listed
words. -/
def ackNoisePat (t : String) : Bool := ackWords.contains (lowerStr t)

/-- Test of the compiled default all-whitespace pattern (anchored whitespace
star): every character of the text is whitespace (so also the empty text). -/
def wsNoisePat (t : String) : Bool := t.data.all Char.isWhitespace

/-- index.ts DEFAULT_CONFIG (0.7 is the rational 7/10). -/
def DEFAULT_CONFIG : Config :=
  { maxMemories := 10000
    defaultImportance := ⟨7, 10, by decide, by decide⟩
    noisePatterns := [ackNoisePat, wsNoisePat]
    autoSaveInterval := 0 }

/-- index.ts MemoryRecallParams. -/
structure RecallParams where
  query : String
  limit : Option Nat := none
  category : Option String := none
  dateFrom : Option String := none
  dateTo : Option String := none
  filterNoise : Option Bool := none

/-- index.ts MemoryStoreParams (metadata already serialized). -/
structure StoreParams where
  text : String
  category : Option String := none
  importance : Option ℚ := none
  sessionKey : Option String := none
  metadata : Option String := none

/-- index.ts MemoryForgetParams. -/
structure ForgetParams where
  memoryId : Option String := none
  query : Option String := none

/-- JavaScript truthiness of an optional string: undefined and the empty
string are falsy. -/
def truthyStr : Option String → Bool
  | none => false
  | some s => !(s == "")

/-- index.ts recall, line 222: const limit = params.limit || 5 (0 is falsy in
JavaScript, so an explicit limit of 0 also yields 5). -/
def effLimit (p : RecallParams) : Nat :=
  match p.limit with
  | some (n + 1) => n + 1
  | _ => 5

/-- The compiled text condition (index.ts lines 227-234): OR over the LIKE
conditions text_lower LIKE secondary pattern percent-token-percent, one per
surviving token. -/
def textCond (words : List String) (m : Memory) : Bool :=
  words.any (fun w => likeMatch ('%' :: (w.data ++ ['%'])) m.textLower.data)

/-- The text-search block of the WHERE clause (index.ts lines 227-234):
present only for a truthy query with at least one surviving token. -/
def textConds (p : RecallParams) : List (Memory → Bool) :=
  if (!(p.query == "")) && !(queryTokens p.query).isEmpty
then [textCond (queryTokens p.query)] else []

/-- The category block of the WHERE clause (index.ts lines 237-240): present
for a truthy category. -/
def catConds (p : RecallParams) : List (Memory → Bool) :=
  match p.category with
  | some c => if c == "" then [] else [fun m => m.category == c]
  | none => []

/-- The created_at lower-bound block of the WHERE clause (index.ts lines
243-246): present for a truthy dateFrom. -/
def fromConds (p : RecallParams) : List (Memory → Bool) :=
  match p.dateFrom with
  | some d => if d == "" then [] else [fun m => strLE d m.createdAt]
  | none => []

/-- The created_at upper-bound block of the WHERE clause (index.ts lines
247-250): present for a truthy dateTo. -/
def toConds (p : RecallParams) : List (Memory → Bool) :=
  match p.dateTo with
  | some d => if d == "" then [] else [fun m => strLE m.createdAt d]
  | none => []

/-- The WHERE conditions assembled by recall (index.ts lines 223-254), in
source order; they are conjoined by AND in the SQL. -/
def recallConds (p : RecallParams) : List (Memory → Bool) :=
  textConds p ++ catConds p ++ fromConds p ++ toConds p

/-- A row satisfies the assembled WHERE clause. -/
def matchesConds (p : RecallParams) (m : Memory) : Bool :=
  (recallConds p).all (fun c => c m)

/-- The ORDER BY importance DESC, created_at DESC comparison of recall
(index.ts line 260): a sorts no later than b. -/
def rankLE (a b : Memory) : Bool :=
  decide (b.importance < a.importance) ||
    (decide (a.importance = b.importance) && strLE b.createdAt a.createdAt)

/-- `rankLE` as a relation, for the sorting lemmas. -/
def RankLE (a b : Memory) : Prop := rankLE a b = true

instance : DecidableRel RankLE := fun a b => instDecidableEqBool (rankLE a b) true

/-- The ORDER BY importance ASC, created_at ASC comparison of eviction
(index.ts line 387): a is evicted no later than b. -/
def evictLE (a b : Memory) : Bool :=
  decide (a.importance < b.importance) ||
    (decide (a.importance = b.importance) && strLE a.createdAt b.createdAt)

/-- `evictLE` as a relation, for the sorting lemmas. -/
def EvictLE (a b : Memory) : Prop := evictLE a b = true

instance : DecidableRel EvictLE := fun a b => instDecidableEqBool (evictLE a b) true

/-- A text matches some configured noise pattern (index.ts lines 297-298; the
patterns are tested against the raw text). -/
def isNoise (cfg : Config) (t : String) : Bool := cfg.noisePatterns.any (fun re => re t)

/-- The rows fetched by recall's SQL (index.ts lines 256-292): the rows
satisfying the WHERE clause, in ORDER BY order, limited to 2 * limit
(line 264: fetch extra for noise filtering). -/
def fetchRows (db : List Memory) (p : RecallParams) : List Memory :=
  (List.insertionSort RankLE (db.filter (matchesConds p))).take (2 * effLimit p)

/-- The noise-filtering step of recall (index.ts lines 295-299), applied
whenever filterNoise is not the explicit value false. -/
def keepAfterNoise (cfg : Config) (p : RecallParams) (rows : List Memory) : List Memory :=
  match p.filterNoise with
  | some false => rows
  | _ => rows.filter (fun m => !isNoise cfg m.text)

/-- index.ts recall (lines 219-302): fetch, noise filter, truncate to limit
(line 301).  Named recallMems because recall is a Lean command keyword. -/
def recallMems (cfg : Config) (db : List Memory) (p : RecallParams) : List Memory :=
  (keepAfterNoise cfg p (fetchRows db p)).take (effLimit p)

/-- The record built and inserted by store (index.ts lines 180-206): fresh id
and timestamp are passed in from the environment, text_lower is the lowercase
of the text, both timestamps are the same instant, an untruthy category
defaults to other, a missing importance defaults to the configured default
(?? keeps an explicit 0), an untruthy sessionKey is stored as NULL. -/
def mkMemory (cfg : Config) (id now : String) (p : StoreParams) : Memory :=
  { id := id
    text := p.text
    textLower := lowerStr p.text
    category :=
      match p.category with
      | some c => if c == "" then "other" else c
      | none => "other"
    importance := p.importance.getD cfg.defaultImportance
    createdAt := now
    updatedAt := now
    sessionKey :=
      match p.sessionKey with
      | some s => if s == "" then none else some s
      | none => none
    metadata := p.metadata }

/-- stats().total (index.ts lines 338-341): COUNT(*) of the memories table. -/
def statsTotal (db : List Memory) : Nat := db.length

/-- index.ts pruneOldMemories (lines 379-393): if the total exceeds
maxMemories, bulk-delete the surplus, selected by ORDER BY importance ASC,
created_at ASC LIMIT surplus. -/
def pruneOldMemories (cfg : Config) (db : List Memory) : List Memory :=
  if cfg.maxMemories < statsTotal db then
    let toDelete := statsTotal db - cfg.maxMemories
    let victimIds := ((List.insertionSort EvictLE db).take toDelete).map (fun m => m.id)
    db.filter (fun m => !victimIds.contains m.id)
  else db

/-- index.ts store (lines 177-214): build the record, INSERT it (appended in
rowid order), then invoke eviction; returns the record and the new table. -/
def store (cfg : Config) (db : List Memory) (id now : String) (p : StoreParams) :
    Memory × List Memory :=
  let m := mkMemory cfg id now p
  (m, pruneOldMemories cfg (db ++ [m]))

/-- index.ts forget (lines 307-330): a truthy memoryId deletes exactly the
rows with that id; otherwise a truthy query deletes the rows located by
recall with filterNoise false and limit 100; otherwise nothing is deleted.
The returned count is getRowsModified, the number of rows the DELETE
removed. -/
def forget (cfg : Config) (db : List Memory) (p : ForgetParams) : Nat × List Memory :=
  if truthyStr p.memoryId then
    let i := p.memoryId.getD ""
    let db2 := db.filter (fun m => !(m.id == i))
    (db.length - db2.length, db2)
  else if truthyStr p.query then
    let found := recallMems cfg db { query := p.query.getD "", limit := some 100, filterNoise := some false }
    if 0 < found.length then
      let ids := found.map (fun m => m.id)
      let db2 := db.filter (fun m => !ids.contains m.id)
      (db.length - db2.length, db2)
    else (0, db)
  else (0, db)

/-- The plugin's mutable handle: this.db is null before init and after
close.  Every public operation checks it (index.ts lines 178, 220, 308,
336). -/
structure PluginState where
  db : Option (List Memory)

/-- The message of the guard throw in every public operation. -/
def notInitMsg : String := "Database not initialized. Call init() first."

/-- The state of a freshly constructed plugin, before init. -/
def initialState : PluginState := ⟨none⟩

/-- init (index.ts lines 98-124): load the persisted image, or start empty. -/
def initOp (loaded : Option (List Memory)) : PluginState := ⟨some (loaded.getD [])⟩

/-- close (index.ts lines 362-373): the handle is cleared; afterwards every
operation hits the not-initialized guard. -/
def closeOp (_st : PluginState) : PluginState := ⟨none⟩

/-- store as a guarded operation on the plugin state. -/
def storeOp (cfg : Config) (st : PluginState) (id now : String) (p : StoreParams) :
    Except String Memory × PluginState :=
  match st.db with
  | none => (Except.error notInitMsg, st)
  | some db =>
    let r := store cfg db id now p
    (Except.ok r.1, ⟨some r.2⟩)

/-- recall as a guarded operation on the plugin state. -/
def recallOp (cfg : Config) (st : PluginState) (p : RecallParams) :
    Except String (List Memory) × PluginState :=
  match st.db with
  | none => (Except.error notInitMsg, st)
  | some db => (Except.ok (recallMems cfg db p), st)

/-- forget as a guarded operation on the plugin state. -/
def forgetOp (cfg : Config) (st : PluginState) (p : ForgetParams) :
    Except String Nat × PluginState :=
  match st.db with
  | none => (Except.error notInitMsg, st)
  | some db =>
    let r := forget cfg db p
    (Except.ok r.1, ⟨some r.2⟩)

/-- stats as a guarded operation on the plugin state. -/
def statsOp (st : PluginState) : Except String Nat × PluginState :=
  match st.db with
  | none => (Except.error notInitMsg, st)
  | some db => (Except.ok (statsTotal db), st)

/-! ### Order-theoretic facts about the comparators -/

theorem lexLE_refl (as : List Char) : lexLE as as = true := by
  induction as with
  | nil => rfl
  | cons a as ih => simp [lexLE, ih]

theorem lexLE_total (as bs : List Char) : lexLE as bs = true ∨ lexLE bs as = true := by
  induction as generalizing bs with
  | nil => exact Or.inl rfl
  | cons a as ih =>
    cases bs with
    | nil => exact Or.inr rfl
    | cons b bs =>
      by_cases hab : a = b
      · subst hab
        rcases ih bs with h | h
        · exact Or.inl (by simp [lexLE, h])
        · exact Or.inr (by simp [lexLE, h])
      · rcases lt_trichotomy a b with h | h | h
        · exact Or.inl (by simp [lexLE, hab, h])
        · exact absurd h hab
        · exact Or.inr (by simp [lexLE, Ne.symm hab, h])

theorem lexLE_trans {as bs cs : List Char} (h1 : lexLE as bs = true)
    (h2 : lexLE bs cs = true) : lexLE as cs = true := by
  induction as generalizing bs cs with
  | nil => rfl
  | cons a as ih =>
    cases bs with
    | nil => simp [lexLE] at h1
    | cons b bs =>
      cases cs with
      | nil => simp [lexLE] at h2
      | cons c cs =>
        by_cases hab : a = b <;> by_cases hbc : b = c
        · subst hab; subst hbc
          simp only [lexLE, if_pos rfl] at h1 h2 ⊢
          exact ih h1 h2
        · subst hab
          simp only [lexLE, if_pos rfl, if_neg hbc, decide_eq_true_eq] at h2 ⊢
          exact h2
        · subst hbc
          simp only [lexLE, if_pos rfl, if_neg hab, decide_eq_true_eq] at h1 ⊢
          exact h1
        · simp only [lexLE, if_neg hab, if_neg hbc, decide_eq_true_eq] at h1 h2
          have hac : a < c := lt_trans h1 h2
          simp [lexLE, ne_of_lt hac, hac]

theorem rankLE_total (a b : Memory) : rankLE a b = true ∨ rankLE b a = true := by
  unfold rankLE
  rcases lt_trichotomy a.importance b.importance with h | h | h
  · exact Or.inr (by simp [h])
  · rcases lexLE_total b.createdAt.data a.createdAt.data with hc | hc
    · exact Or.inl (by simp [h, strLE, hc])
    · exact Or.inr (by simp [h.symm, strLE, hc])
  · exact Or.inl (by simp [h])

theorem rankLE_trans {a b c : Memory} (h1 : rankLE a b = true) (h2 : rankLE b c = true) :
    rankLE a c = true := by
  unfold rankLE at h1 h2 ⊢
  simp only [Bool.or_eq_true, Bool.and_eq_true, decide_eq_true_eq] at h1 h2 ⊢
  rcases h1 with h1 | ⟨h1e, h1s⟩
  · rcases h2 with h2 | ⟨h2e, h2s⟩
    · exact Or.inl (lt_trans h2 h1)
    · exact Or.inl (h2e ▸ h1)
  · rcases h2 with h2 | ⟨h2e, h2s⟩
    · exact Or.inl (h1e ▸ h2)
    · exact Or.inr ⟨h1e.trans h2e, lexLE_trans h2s h1s⟩

instance : IsTotal Memory RankLE := ⟨rankLE_total⟩

instance : IsTrans Memory RankLE := ⟨fun _ _ _ => rankLE_trans⟩

theorem evictLE_total (a b : Memory) : evictLE a b = true ∨ evictLE b a = true := by
  unfold evictLE
  rcases lt_trichotomy a.importance b.importance with h | h | h
  · exact Or.inl (by simp [h])
  · rcases lexLE_total a.createdAt.data b.createdAt.data with hc | hc
    · exact Or.inl (by simp [h, strLE, hc])
    · exact Or.inr (by simp [h.symm, strLE, hc])
  · exact Or.inr (by simp [h])

theorem evictLE_trans {a b c : Memory} (h1 : evictLE a b = true) (h2 : evictLE b c = true) :
    evictLE a c = true := by
  unfold evictLE at h1 h2 ⊢
  simp only [Bool.or_eq_true, Bool.and_eq_true, decide_eq_true_eq] at h1 h2 ⊢
  rcases h1 with h1 | ⟨h1e, h1s⟩
  · rcases h2 with h2 | ⟨h2e, h2s⟩
    · exact Or.inl (lt_trans h1 h2)
    · exact Or.inl (h2e ▸ h1)
  · rcases h2 with h2 | ⟨h2e, h2s⟩
    · exact Or.inl (h1e ▸ h2)
    · exact Or.inr ⟨h1e.trans h2e, lexLE_trans h1s h2s⟩

theorem evictLE_refl (a : Memory) : evictLE a a = true := by
  simp [evictLE, strLE, lexLE_refl]

instance : IsTotal Memory EvictLE := ⟨evictLE_total⟩

instance : IsTrans Memory EvictLE := ⟨fun _ _ _ => evictLE_trans⟩

/-! ### LIKE pattern matching versus substring containment -/

theorem likeSkip_iff (f : List Char → Bool) (t : List Char) :
    likeSkip f t = true ↔ ∃ n, f (t.drop n) = true := by
  induction t with
  | nil =>
    simp only [likeSkip, List.drop_nil]
    exact ⟨fun h => ⟨0, h⟩, fun ⟨_, h⟩ => h⟩
  | cons x ts ih =>
    simp only [likeSkip, Bool.or_eq_true, ih]
    constructor
    · rintro (h | ⟨n, h⟩)
      · exact ⟨0, h⟩
      · exact ⟨n + 1, h⟩
    · rintro ⟨n, h⟩
      cases n with
      | zero => exact Or.inl h
      | succ n => exact Or.inr ⟨n, h⟩

theorem substrChars_iff (w t : List Char) :
    substrChars w t = true ↔ ∃ n, prefChars w (t.drop n) = true := by
  induction t with
  | nil =>
    simp only [substrChars, List.drop_nil]
    exact ⟨fun h => ⟨0, h⟩, fun ⟨_, h⟩ => h⟩
  | cons x ts ih =>
    simp only [substrChars, Bool.or_eq_true, ih]
    constructor
    · rintro (h | ⟨n, h⟩)
      · exact ⟨0, h⟩
      · exact ⟨n + 1, h⟩
    · rintro ⟨n, h⟩
      cases n with
      | zero => exact Or.inl h
      | succ n => exact Or.inr ⟨n, h⟩

theorem likeMatch_lone_pct (t : List Char) : likeMatch ['%'] t = true := by
  have hpct : likeMatch ['%'] = fun t => likeSkip (likeMatch []) t := by
    simp [likeMatch]
  induction t with
  | nil => rfl
  | cons x ts ih =>
    rw [hpct] at ih ⊢
    simp only [likeSkip, Bool.or_eq_true]
    exact Or.inr ih

theorem likeMatch_append_pct (w : List Char) (hp : '%' ∉ w) (hu : '_' ∉ w)
    (t : List Char) : likeMatch (w ++ ['%']) t = prefChars w t := by
  induction w generalizing t with
  | nil => simp [likeMatch_lone_pct, prefChars]
  | cons c cs ih =>
    have hcp : c ≠ '%' := fun h => hp (h ▸ List.mem_cons_self c cs)
    have hcu : c ≠ '_' := fun h => hu (h ▸ List.mem_cons_self c cs)
    have hp' : '%' ∉ cs := fun h => hp (List.mem_cons_of_mem c h)
    have hu' : '_' ∉ cs := fun h => hu (List.mem_cons_of_mem c h)
    cases t with
    | nil => simp [likeMatch, if_neg hcp, prefChars]
    | cons x ts =>
      simp only [List.cons_append, likeMatch, if_neg hcp, if_neg hcu, prefChars]
      exact congrArg (fun b => (c == x) && b) (ih hp' hu' ts)

theorem prefChars_implies_like (w : List Char) :
    ∀ t : List Char, prefChars w t = true → likeMatch (w ++ ['%']) t = true := by
  induction w with
  | nil => exact fun t _ => likeMatch_lone_pct t
  | cons c cs ih =>
    intro t h
    cases t with
    | nil => simp [prefChars] at h
    | cons x ts =>
      simp only [prefChars, Bool.and_eq_true, beq_iff_eq] at h
      obtain ⟨hcx, hpre⟩ := h
      by_cases hcp : c = '%'
      · subst hcp
        show likeSkip (likeMatch (cs ++ ['%'])) (x :: ts) = true
        rw [likeSkip_iff]
        exact ⟨1, by simpa using ih ts hpre⟩
      · simp only [List.cons_append, likeMatch, if_neg hcp, Bool.and_eq_true]
        refine ⟨?_, ih ts hpre⟩
        by_cases hcu : c = '_'
        · simp [hcu]
        · simp [hcu, hcx]

theorem like_iff_substr (w t : List Char) (hp : '%' ∉ w) (hu : '_' ∉ w) :
    likeMatch ('%' :: (w ++ ['%'])) t = true ↔ substrChars w t = true := by
  have hunf : likeMatch ('%' :: (w ++ ['%'])) t = likeSkip (likeMatch (w ++ ['%'])) t := by
    simp [likeMatch]
  rw [hunf, likeSkip_iff, substrChars_iff]
  constructor
  · rintro ⟨n, h⟩
    exact ⟨n, by rwa [likeMatch_append_pct w hp hu] at h⟩
  · rintro ⟨n, h⟩
    exact ⟨n, by rwa [likeMatch_append_pct w hp hu]⟩

theorem substr_implies_like (w t : List Char) (h : substrChars w t = true) :
    likeMatch ('%' :: (w ++ ['%'])) t = true := by
  have hunf : likeMatch ('%' :: (w ++ ['%'])) t = likeSkip (likeMatch (w ++ ['%'])) t := by
    simp [likeMatch]
  rw [hunf, likeSkip_iff]
  rw [substrChars_iff] at h
  obtain ⟨n, hn⟩ := h
  exact ⟨n, prefChars_implies_like w _ hn⟩

/-! ### Declarative characterization of the WHERE clause -/

theorem queryTokens_empty : queryTokens "" = [] := rfl

theorem textCondBlock (p : RecallParams) (m : Memory) :
    ((textConds p).all (fun c => c m) = true)
      ↔ (queryTokens p.query ≠ [] →
          ∃ w ∈ queryTokens p.query,
            likeMatch ('%' :: (w.data ++ ['%'])) m.textLower.data = true) := by
  unfold textConds
  by_cases hq : p.query = ""
  · simp [hq, queryTokens_empty]
  · by_cases ht : queryTokens p.query = []
    · simp [ht, hq]
    · simp [hq, ht, textCond, List.any_eq_true]

theorem catCondBlock (p : RecallParams) (m : Memory) :
    ((catConds p).all (fun c => c m) = true)
      ↔ (∀ c, p.category = some c → c ≠ "" → m.category = c) := by
  unfold catConds
  cases hc : p.category with
  | none => simp
  | some c =>
    by_cases hce : c = ""
    · subst hce; simp
    · simp [hce, beq_iff_eq]

theorem fromCondBlock (p : RecallParams) (m : Memory) :
    ((fromConds p).all (fun c => c m) = true)
      ↔ (∀ d, p.dateFrom = some d → d ≠ "" → strLE d m.createdAt = true) := by
  unfold fromConds
  cases hd : p.dateFrom with
  | none => simp
  | some d =>
    by_cases hde : d = ""
    · subst hde; simp
    · simp [hde]

theorem toCondBlock (p : RecallParams) (m : Memory) :
    ((toConds p).all (fun c => c m) = true)
      ↔ (∀ d, p.dateTo = some d → d ≠ "" → strLE m.createdAt d = true) := by
  unfold toConds
  cases hd : p.dateTo with
  | none => simp
  | some d =>
    by_cases hde : d = ""
    · subst hde; simp
    · simp [hde]

theorem matchesConds_iff (p : RecallParams) (m : Memory) :
    matchesConds p m = true ↔
      ((queryTokens p.query ≠ [] →
          ∃ w ∈ queryTokens p.query,
            likeMatch ('%' :: (w.data ++ ['%'])) m.textLower.data = true)
        ∧ (∀ c, p.category = some c → c ≠ "" → m.category = c)
        ∧ (∀ d, p.dateFrom = some d → d ≠ "" → strLE d m.createdAt = true)
        ∧ (∀ d, p.dateTo = some d → d ≠ "" → strLE m.createdAt d = true)) := by
  rw [matchesConds, recallConds, List.all_append, List.all_append, List.all_append]
  simp only [Bool.and_eq_true]
  rw [and_assoc, and_assoc]
  rw [textCondBlock p m, catCondBlock p m, fromCondBlock p m, toCondBlock p m]

/-! ### Plumbing: the recall pipeline -/

theorem keepAfterNoise_of_not_false (cfg : Config) (p : RecallParams)
    (rows : List Memory) (h : p.filterNoise ≠ some false) :
    keepAfterNoise cfg p rows = rows.filter (fun m => !isNoise cfg m.text) := by
  unfold keepAfterNoise
  cases hf : p.filterNoise with
  | none => rfl
  | some b =>
    cases b with
    | false => exact absurd hf h
    | true => rfl

theorem keepAfterNoise_of_false (cfg : Config) (p : RecallParams)
    (rows : List Memory) (h : p.filterNoise = some false) :
    keepAfterNoise cfg p rows = rows := by
  unfold keepAfterNoise
  rw [h]

theorem keepAfterNoise_sublist (cfg : Config) (p : RecallParams) (rows : List Memory) :
    List.Sublist (keepAfterNoise cfg p rows) rows := by
  unfold keepAfterNoise
  cases p.filterNoise with
  | none => exact List.filter_sublist rows
  | some b =>
    cases b with
    | false => exact List.Sublist.refl rows
    | true => exact List.filter_sublist rows

theorem recallMems_sublist_sorted (cfg : Config) (db : List Memory) (p : RecallParams) :
    List.Sublist (recallMems cfg db p)
      (List.insertionSort RankLE (db.filter (matchesConds p))) := by
  unfold recallMems fetchRows
  refine List.Sublist.trans (List.take_sublist _ _) ?_
  exact List.Sublist.trans (keepAfterNoise_sublist cfg p _) (List.take_sublist _ _)

theorem recallMems_subset (cfg : Config) (db : List Memory) (p : RecallParams)
    {m : Memory} (h : m ∈ recallMems cfg db p) : m ∈ db := by
  have h1 : m ∈ List.insertionSort RankLE (db.filter (matchesConds p)) :=
    (recallMems_sublist_sorted cfg db p).mem h
  exact List.mem_of_mem_filter ((List.mem_insertionSort RankLE).mp h1)

/-! ### Claim C1 -/

/-- C1 (amended): a row satisfies recall's WHERE clause exactly when (a) if
any token of length > 1 survives the whitespace split of the lowercased
query, at least one surviving token matches the lowercased text as the SQL
LIKE pattern percent-token-percent (OR across tokens), and (b) the category
and date predicates, when present and truthy, all hold (AND).  If no token
survives, no text predicate is applied.  For tokens containing neither LIKE
wildcard, percent nor underscore, the LIKE match is exactly substring
containment; a wildcard token is interpreted as a pattern, not literally. -/
theorem recall_where_characterization :
    (∀ p m, matchesConds p m = true ↔
      ((queryTokens p.query ≠ [] →
          ∃ w ∈ queryTokens p.query,
            likeMatch ('%' :: (w.data ++ ['%'])) m.textLower.data = true)
        ∧ (∀ c, p.category = some c → c ≠ "" → m.category = c)
        ∧ (∀ d, p.dateFrom = some d → d ≠ "" → strLE d m.createdAt = true)
        ∧ (∀ d, p.dateTo = some d → d ≠ "" → strLE m.createdAt d = true)))
    ∧ (∀ w t : String, '%' ∉ w.data → '_' ∉ w.data →
        (likeMatch ('%' :: (w.data ++ ['%'])) t.data = true ↔
          substrChars w.data t.data = true)) :=
  ⟨matchesConds_iff, fun w t hp hu => like_iff_substr w.data t.data hp hu⟩

/-- The record of the C1 counterexample: lowercased text xax. -/
def mWild : Memory :=
  { id := "m1", text := "xax", textLower := "xax", category := "other",
    importance := 1, createdAt := "2024-01-01", updatedAt := "2024-01-01",
    sessionKey := none, metadata := none }

/-- C1 counterexample: for the query consisting of the single surviving
token a-percent, the stored record with text xax is returned by recall even
though no surviving token occurs in its lowercased text as a substring —
the token is interpreted as a LIKE pattern, where the percent sign is a
wildcard, so the claim's substring reading of the text predicate is false. -/
theorem recall_substring_claim_counterexample :
    recallMems DEFAULT_CONFIG [mWild] { query := "a%", filterNoise := some false } = [mWild]
    ∧ queryTokens "a%" = ["a%"]
    ∧ substrChars ("a%" : String).data mWild.textLower.data = false := by
  decide

/-- Witness for C1: the amended theorem applied at a concrete wildcard-free
token and text. -/
theorem recall_where_characterization_witness :
    likeMatch ('%' :: (("ab" : String).data ++ ['%'])) ("xaby" : String).data = true ↔
      substrChars ("ab" : String).data ("xaby" : String).data = true :=
  recall_where_characterization.2 "ab" "xaby" (by decide) (by decide)

/-! ### Claim C2 -/

/-- C2: every sequence returned by recall is ordered by importance
descending, ties broken by createdAt descending (on the TEXT comparison of
the ISO timestamps), whatever the configuration, store contents and
parameters. -/
theorem recall_ordered (cfg : Config) (db : List Memory) (p : RecallParams) :
    List.Pairwise
      (fun a b : Memory =>
        b.importance < a.importance ∨
          (a.importance = b.importance ∧ strLE b.createdAt a.createdAt = true))
      (recallMems cfg db p) := by
  have hs : List.Sorted RankLE (List.insertionSort RankLE (db.filter (matchesConds p))) :=
    List.sorted_insertionSort RankLE _
  have hp : List.Pairwise RankLE (recallMems cfg db p) :=
    List.Pairwise.sublist (recallMems_sublist_sorted cfg db p) hs
  refine hp.imp ?_
  intro a b h
  have h' := h
  unfold RankLE rankLE at h'
  simpa [Bool.or_eq_true, Bool.and_eq_true, decide_eq_true_eq] using h'

/-! ### Claim C3 -/

/-- A stored record whose text is exactly ok — a noise match under the
default patterns. -/
def mOk : Memory :=
  { id := "ok1", text := "ok", textLower := "ok", category := "conversation",
    importance := 1, createdAt := "2024-01-01", updatedAt := "2024-01-01",
    sessionKey := none, metadata := none }

/-- C3: whenever filterNoise is not the explicit value false (including when
omitted), no record whose raw text matches a configured noise pattern
appears in recall's results, and recall equals the noise-filtered fetch
truncated to the limit — so suppression is exactly noise-pattern matching,
applied after the fetch and before truncation.  With filterNoise explicitly
false no record is suppressed.  Concretely, under the default patterns a
record with text ok is excluded by the matching query ok unless filterNoise
is false, and the default patterns are case-insensitive whole-string tests. -/
theorem recall_noise_suppression :
    (∀ cfg db p m, p.filterNoise ≠ some false → m ∈ recallMems cfg db p →
      isNoise cfg m.text = false)
    ∧ (∀ cfg db p, p.filterNoise ≠ some false →
        recallMems cfg db p =
          ((fetchRows db p).filter (fun m => !isNoise cfg m.text)).take (effLimit p))
    ∧ (∀ cfg db p, p.filterNoise = some false →
        recallMems cfg db p = (fetchRows db p).take (effLimit p))
    ∧ (recallMems DEFAULT_CONFIG [mOk] { query := "ok" } = []
       ∧ recallMems DEFAULT_CONFIG [mOk] { query := "ok", filterNoise := some true } = []
       ∧ recallMems DEFAULT_CONFIG [mOk] { query := "ok", filterNoise := some false } = [mOk]
       ∧ isNoise DEFAULT_CONFIG "OK" = true
       ∧ isNoise DEFAULT_CONFIG "book" = false) := by
  refine ⟨?_, ?_, ?_, by decide⟩
  · intro cfg db p m hfn hm
    unfold recallMems at hm
    have hm2 : m ∈ keepAfterNoise cfg p (fetchRows db p) :=
      (List.take_sublist _ _).mem hm
    rw [keepAfterNoise_of_not_false cfg p _ hfn] at hm2
    have hkeep := (List.mem_filter.mp hm2).2
    simpa using hkeep
  · intro cfg db p hfn
    unfold recallMems
    rw [keepAfterNoise_of_not_false cfg p _ hfn]
  · intro cfg db p hfn
    unfold recallMems
    rw [keepAfterNoise_of_false cfg p _ hfn]

/-- Witness for C3: the noise-filter equation applied at the one-record
store and the matching query, with the omitted filterNoise discharged. -/
theorem recall_noise_suppression_witness :
    recallMems DEFAULT_CONFIG [mOk] { query := "ok" } =
      ((fetchRows [mOk] { query := "ok" }).filter
        (fun m => !isNoise DEFAULT_CONFIG m.text)).take (effLimit { query := "ok" }) :=
  recall_noise_suppression.2.1 DEFAULT_CONFIG [mOk] { query := "ok" } (by decide)

/-! ### Claim C4 -/

/-- Two noise records ranked above one matching non-noise record: the
over-fetch boundary store for limit 1. -/
def dbOverfetch : List Memory :=
  [{ id := "n1", text := "ok", textLower := "ok", category := "other",
     importance := 2, createdAt := "2024-01-02", updatedAt := "2024-01-02",
     sessionKey := none, metadata := none },
   { id := "n2", text := "ok", textLower := "ok", category := "other",
     importance := 2, createdAt := "2024-01-01", updatedAt := "2024-01-01",
     sessionKey := none, metadata := none },
   { id := "h1", text := "hello", textLower := "hello", category := "other",
     importance := 1, createdAt := "2024-01-01", updatedAt := "2024-01-01",
     sessionKey := none, metadata := none }]

/-- C4: recall fetches at most 2 times limit rows in ranked order before
noise filtering, returns the first limit entries of the noise-filtered
fetch, hence returns at most limit records; and for the concrete store with
limit + 1 noise records ranked above a non-noise match and limit 1, recall
with noise filtering returns fewer than limit records even though limit
non-noise matching records exist in the store. -/
theorem recall_overfetch_bound :
    (∀ db p, (fetchRows db p).length ≤ 2 * effLimit p)
    ∧ (∀ cfg db p,
        recallMems cfg db p = (keepAfterNoise cfg p (fetchRows db p)).take (effLimit p))
    ∧ (∀ cfg db p, (recallMems cfg db p).length ≤ effLimit p)
    ∧ (effLimit { query := "", limit := some 1 } = 1
       ∧ recallMems DEFAULT_CONFIG dbOverfetch { query := "", limit := some 1 } = []
       ∧ (dbOverfetch.filter (fun m => !isNoise DEFAULT_CONFIG m.text)).length = 1) := by
  refine ⟨?_, fun cfg db p => rfl, ?_, by decide⟩
  · intro db p
    exact List.length_take_le _ _
  · intro cfg db p
    exact List.length_take_le _ _

/-! ### Claim C5: eviction -/

theorem filter_drop_of_nodup (t d : List Memory)
    (hnd : ((t ++ d).map (fun m => m.id)).Nodup) :
    (t ++ d).filter (fun m => !((t.map (fun m => m.id)).contains m.id)) = d := by
  rw [List.map_append] at hnd
  obtain ⟨hnt, hndup, hdisj⟩ := List.nodup_append.mp hnd
  rw [List.filter_append]
  have h1 : t.filter (fun m => !((t.map (fun m => m.id)).contains m.id)) = [] := by
    refine List.filter_eq_nil_iff.mpr ?_
    intro m hm
    have hc : (t.map (fun m => m.id)).contains m.id = true :=
      List.elem_eq_true_of_mem (List.mem_map_of_mem _ hm)
    show ¬ (!(t.map (fun m => m.id)).contains m.id) = true
    rw [hc]
    decide
  have h2 : d.filter (fun m => !((t.map (fun m => m.id)).contains m.id)) = d := by
    refine List.filter_eq_self.mpr ?_
    intro m hm
    have hmem : m.id ∈ d.map (fun m => m.id) := List.mem_map_of_mem _ hm
    have hnotin : m.id ∉ t.map (fun m => m.id) := fun hc => hdisj hc hmem
    have hc : (t.map (fun m => m.id)).contains m.id = false := by
      by_cases hc : (t.map (fun m => m.id)).contains m.id = true
      · exact absurd (List.mem_of_elem_eq_true hc) hnotin
      · simpa using hc
    show (!(t.map (fun m => m.id)).contains m.id) = true
    rw [hc]
    rfl
  rw [h1, h2, List.nil_append]

theorem prune_perm_drop (cfg : Config) (db : List Memory)
    (hnd : (db.map (fun m => m.id)).Nodup) (h : cfg.maxMemories < db.length) :
    List.Perm (pruneOldMemories cfg db)
      ((List.insertionSort EvictLE db).drop (db.length - cfg.maxMemories)) := by
  simp only [pruneOldMemories, statsTotal]
  rw [if_pos h]
  have hperm : List.Perm db (List.insertionSort EvictLE db) :=
    (List.perm_insertionSort EvictLE db).symm
  have hnds : ((List.insertionSort EvictLE db).map (fun m => m.id)).Nodup :=
    ((hperm.map (fun m => m.id)).nodup_iff).mp hnd
  set s := List.insertionSort EvictLE db with hs
  set k := db.length - cfg.maxMemories with hk
  have hsplit : s.take k ++ s.drop k = s := List.take_append_drop k s
  have hfil := filter_drop_of_nodup (s.take k) (s.drop k) (by rw [hsplit]; exact hnds)
  rw [hsplit] at hfil
  exact hfil ▸ (hperm.filter _)

theorem prune_length (cfg : Config) (db : List Memory)
    (hnd : (db.map (fun m => m.id)).Nodup) :
    (pruneOldMemories cfg db).length = min db.length cfg.maxMemories := by
  by_cases h : cfg.maxMemories < db.length
  · have hp := (prune_perm_drop cfg db hnd h).length_eq
    rw [List.length_drop] at hp
    have hlen : (List.insertionSort EvictLE db).length = db.length :=
      (List.perm_insertionSort EvictLE db).length_eq
    rw [hlen] at hp
    omega
  · simp only [pruneOldMemories, statsTotal]
    rw [if_neg h]
    omega

theorem evictLE_iff (a b : Memory) :
    evictLE a b = true ↔
      (a.importance < b.importance ∨
        (a.importance = b.importance ∧ strLE a.createdAt b.createdAt = true)) := by
  simp [evictLE, Bool.or_eq_true, Bool.and_eq_true, decide_eq_true_eq]

theorem store_length (cfg : Config) (db : List Memory) (id now : String) (sp : StoreParams)
    (hnd : ((db ++ [mkMemory cfg id now sp]).map (fun m => m.id)).Nodup) :
    (store cfg db id now sp).2.length = min (db.length + 1) cfg.maxMemories := by
  show (pruneOldMemories cfg (db ++ [mkMemory cfg id now sp])).length = _
  rw [prune_length cfg _ hnd, List.length_append]
  rfl

theorem store_evicts_minimum (cfg : Config) (db : List Memory) (id now : String)
    (sp : StoreParams)
    (hnd : ((db ++ [mkMemory cfg id now sp]).map (fun m => m.id)).Nodup)
    (hfull : db.length = cfg.maxMemories) :
    ∃ v ∈ db ++ [mkMemory cfg id now sp],
      (∀ r ∈ db ++ [mkMemory cfg id now sp],
        v.importance < r.importance ∨
          (v.importance = r.importance ∧ strLE v.createdAt r.createdAt = true))
      ∧ (store cfg db id now sp).2 =
          (db ++ [mkMemory cfg id now sp]).filter (fun m => !(m.id == v.id))
      ∧ v ∉ (store cfg db id now sp).2
      ∧ (store cfg db id now sp).2.length = cfg.maxMemories := by
  set all := db ++ [mkMemory cfg id now sp] with hall
  have hlen : all.length = cfg.maxMemories + 1 := by
    rw [hall, List.length_append, hfull]
    rfl
  have hperm : List.Perm (List.insertionSort EvictLE all) all :=
    List.perm_insertionSort EvictLE all
  set s := List.insertionSort EvictLE all with hsdef
  have hslen : s.length = cfg.maxMemories + 1 := hperm.length_eq.trans hlen
  obtain ⟨v, rest, hsv⟩ : ∃ v rest, s = v :: rest := by
    cases hs : s with
    | nil => rw [hs] at hslen; simp at hslen
    | cons a t => exact ⟨a, t, rfl⟩
  have hvs : v ∈ s := hsv ▸ List.mem_cons_self v rest
  have hvall : v ∈ all := hperm.subset hvs
  have hsort : List.Sorted EvictLE s := List.sorted_insertionSort EvictLE all
  have hmin : ∀ r ∈ all, v.importance < r.importance ∨
      (v.importance = r.importance ∧ strLE v.createdAt r.createdAt = true) := by
    intro r hr
    have hrs : r ∈ s := (hperm.mem_iff).mpr hr
    rw [hsv] at hrs
    rcases List.mem_cons.mp hrs with hre | hre
    · rw [hre]
      exact (evictLE_iff v v).mp (evictLE_refl v)
    · rw [hsv] at hsort
      exact (evictLE_iff v r).mp (List.rel_of_sorted_cons hsort r hre)
  have hstore2 : (store cfg db id now sp).2 = pruneOldMemories cfg all := rfl
  have hover : cfg.maxMemories < all.length := by omega
  have htd : all.length - cfg.maxMemories = 1 := by omega
  have hprune : pruneOldMemories cfg all =
      all.filter (fun m => !(m.id == v.id)) := by
    simp only [pruneOldMemories, statsTotal]
    rw [if_pos hover, htd]
    have htake : s.take 1 = [v] := by rw [hsv]; rfl
    rw [← hsdef, htake]
    refine congrArg (List.filter · all) ?_
    funext m
    by_cases h : m.id = v.id <;> simp [List.contains, h]
  have heq : (store cfg db id now sp).2 = all.filter (fun m => !(m.id == v.id)) :=
    hstore2.trans hprune
  refine ⟨v, hvall, hmin, heq, ?_, ?_⟩
  · intro hv
    rw [heq] at hv
    have hkeep := (List.mem_filter.mp hv).2
    simp at hkeep
  · have := store_length cfg db id now sp hnd
    rw [hfull] at this
    omega

/-- The records of the no-eviction-after-forget examples, with a tiny
capacity of 1 exceeded by three stored records. -/
def cfgTiny : Config :=
  { maxMemories := 1, defaultImportance := 1, noisePatterns := [], autoSaveInterval := 0 }

/-- A three-record over-capacity store for cfgTiny. -/
def dbTiny : List Memory :=
  [{ id := "t1", text := "alpha", textLower := "alpha", category := "other",
     importance := 1, createdAt := "2024-01-01", updatedAt := "2024-01-01",
     sessionKey := none, metadata := none },
   { id := "t2", text := "beta", textLower := "beta", category := "other",
     importance := 2, createdAt := "2024-01-02", updatedAt := "2024-01-02",
     sessionKey := none, metadata := none },
   { id := "t3", text := "gamma", textLower := "gamma", category := "other",
     importance := 3, createdAt := "2024-01-03", updatedAt := "2024-01-03",
     sessionKey := none, metadata := none }]

/-- C5: after every store (with distinct row ids) the record count is
min (previous + 1) maxMemories, hence at most maxMemories; when a store
overflows a full table of N = maxMemories records, the pruned table is
obtained by one bulk deletion of a record that is minimal across the whole
table by (importance, createdAt) ascending, leaving exactly N records.
Forget never evicts: on an over-capacity store, forget with no arguments
deletes nothing and forget by id deletes only that row, both leaving the
count above maxMemories. -/
theorem store_eviction_policy :
    (∀ cfg db id now sp,
      ((db ++ [mkMemory cfg id now sp]).map (fun m => m.id)).Nodup →
      (store cfg db id now sp).2.length = min (db.length + 1) cfg.maxMemories
        ∧ (store cfg db id now sp).2.length ≤ cfg.maxMemories)
    ∧ (∀ cfg db id now sp,
        ((db ++ [mkMemory cfg id now sp]).map (fun m => m.id)).Nodup →
        db.length = cfg.maxMemories →
        ∃ v ∈ db ++ [mkMemory cfg id now sp],
          (∀ r ∈ db ++ [mkMemory cfg id now sp],
            v.importance < r.importance ∨
              (v.importance = r.importance ∧ strLE v.createdAt r.createdAt = true))
          ∧ (store cfg db id now sp).2 =
              (db ++ [mkMemory cfg id now sp]).filter (fun m => !(m.id == v.id))
          ∧ v ∉ (store cfg db id now sp).2
          ∧ (store cfg db id now sp).2.length = cfg.maxMemories)
    ∧ (forget cfgTiny dbTiny {} = (0, dbTiny)
       ∧ (forget cfgTiny dbTiny { memoryId := some "t1" }).2.length = 2
       ∧ cfgTiny.maxMemories = 1 ∧ dbTiny.length = 3) := by
  refine ⟨?_, store_evicts_minimum, by decide⟩
  intro cfg db id now sp hnd
  have h := store_length cfg db id now sp hnd
  constructor
  · exact h
  · omega

/-- Witness for C5: the length law and the minimal-victim law applied to a
concrete overflowing store. -/
theorem store_eviction_policy_witness :
    ((store cfgTiny (dbTiny.take 1) "t9" "2024-09-09" { text := "delta" }).2.length =
        min (1 + 1) 1
      ∧ (store cfgTiny (dbTiny.take 1) "t9" "2024-09-09" { text := "delta" }).2.length ≤ 1)
    ∧ ∃ v ∈ dbTiny.take 1 ++ [mkMemory cfgTiny "t9" "2024-09-09" { text := "delta" }],
        (∀ r ∈ dbTiny.take 1 ++ [mkMemory cfgTiny "t9" "2024-09-09" { text := "delta" }],
          v.importance < r.importance ∨
            (v.importance = r.importance ∧ strLE v.createdAt r.createdAt = true))
        ∧ (store cfgTiny (dbTiny.take 1) "t9" "2024-09-09" { text := "delta" }).2 =
            (dbTiny.take 1 ++ [mkMemory cfgTiny "t9" "2024-09-09" { text := "delta" }]).filter
              (fun m => !(m.id == v.id))
        ∧ v ∉ (store cfgTiny (dbTiny.take 1) "t9" "2024-09-09" { text := "delta" }).2
        ∧ (store cfgTiny (dbTiny.take 1) "t9" "2024-09-09" { text := "delta" }).2.length =
            cfgTiny.maxMemories :=
  ⟨store_eviction_policy.1 cfgTiny (dbTiny.take 1) "t9" "2024-09-09" { text := "delta" }
      (by decide),
    store_eviction_policy.2.1 cfgTiny (dbTiny.take 1) "t9" "2024-09-09" { text := "delta" }
      (by decide) (by decide)⟩

/-! ### Claim C6: forget -/

theorem length_filter_ne_id (db : List Memory) (i : String)
    (hnd : (db.map (fun m => m.id)).Nodup) (hmem : ∃ m ∈ db, m.id = i) :
    db.length = (db.filter (fun m => !(m.id == i))).length + 1 := by
  induction db with
  | nil =>
    rcases hmem with ⟨m, hm, _⟩
    simp at hm
  | cons a l ih =>
    rw [List.map_cons, List.nodup_cons] at hnd
    obtain ⟨hna, hnl⟩ := hnd
    by_cases hai : a.id = i
    · have hfl : l.filter (fun m => !(m.id == i)) = l := by
        refine List.filter_eq_self.mpr ?_
        intro m hm
        have hne : ¬ m.id = i := by
          intro he
          exact hna (hai ▸ he ▸ List.mem_map_of_mem (fun m => m.id) hm)
        simp [hne]
      rw [List.filter_cons]
      have hcond : (!(a.id == i)) = false := by simp [hai]
      rw [hcond]
      simp [hfl]
    · have hmem2 : ∃ m ∈ l, m.id = i := by
        rcases hmem with ⟨m, hm, hmi⟩
        rcases List.mem_cons.mp hm with he | hm2
        · exact absurd (he ▸ hmi) hai
        · exact ⟨m, hm2, hmi⟩
      have hrec := ih hnl hmem2
      rw [List.filter_cons]
      have hcond : (!(a.id == i)) = true := by simp [hai]
      rw [hcond]
      simp only [if_true, List.length_cons]
      omega

/-- C6: forget deletes by id when a truthy memoryId is supplied (that row
and nothing else, one row when present under distinct ids, nothing when
absent), otherwise by the id set located by recall with the same query,
filterNoise false and limit 100 when a truthy query is supplied, otherwise
nothing; the returned count always equals the number of rows removed, so
the total decreases by exactly that count. -/
theorem forget_semantics :
    (∀ cfg db p, (forget cfg db p).2.length + (forget cfg db p).1 = db.length)
    ∧ (∀ cfg db p i, p.memoryId = some i → i ≠ "" →
        (forget cfg db p).2 = db.filter (fun m => !(m.id == i))
        ∧ ((db.map (fun m => m.id)).Nodup → (∃ m ∈ db, m.id = i) →
            (forget cfg db p).1 = 1)
        ∧ ((∀ m ∈ db, m.id ≠ i) → forget cfg db p = (0, db)))
    ∧ (∀ cfg db p q, truthyStr p.memoryId = false → p.query = some q → q ≠ "" →
        (forget cfg db p).2 = db.filter (fun m =>
          !(((recallMems cfg db
              { query := q, limit := some 100, filterNoise := some false }).map
                (fun m => m.id)).contains m.id))
        ∧ (forget cfg db p).1 = db.length - (forget cfg db p).2.length)
    ∧ (∀ cfg db p, truthyStr p.memoryId = false → truthyStr p.query = false →
        forget cfg db p = (0, db)) := by
  refine ⟨?_, ?_, ?_, ?_⟩
  · intro cfg db p
    unfold forget
    by_cases h1 : truthyStr p.memoryId = true
    · rw [if_pos h1]
      have hle := List.length_filter_le (fun m => !(m.id == p.memoryId.getD "")) db
      simp only []
      omega
    · rw [if_neg h1]
      by_cases h2 : truthyStr p.query = true
      · rw [if_pos h2]
        by_cases h3 : 0 < (recallMems cfg db
            { query := p.query.getD "", limit := some 100,
              filterNoise := some false }).length
        · rw [if_pos h3]
          have hle := List.length_filter_le
            (fun m => !(((recallMems cfg db
              { query := p.query.getD "", limit := some 100,
                filterNoise := some false }).map (fun m => m.id)).contains m.id)) db
          simp only []
          omega
        · rw [if_neg h3]
          simp
      · rw [if_neg h2]
        simp
  · intro cfg db p i hp hi
    have ht : truthyStr p.memoryId = true := by
      rw [hp]
      simp [truthyStr, hi]
    have hgd : p.memoryId.getD "" = i := by rw [hp]; rfl
    have hbranch : forget cfg db p =
        (db.length - (db.filter (fun m => !(m.id == i))).length,
          db.filter (fun m => !(m.id == i))) := by
      unfold forget
      rw [if_pos ht, hgd]
    refine ⟨by rw [hbranch], ?_, ?_⟩
    · intro hnd hmem
      have hcount := length_filter_ne_id db i hnd hmem
      rw [hbranch]
      simp only []
      omega
    · intro habs
      have hfl : db.filter (fun m => !(m.id == i)) = db := by
        refine List.filter_eq_self.mpr ?_
        intro m hm
        simp [habs m hm]
      rw [hbranch, hfl]
      simp
  · intro cfg db p q hmid hq hqne
    have ht : truthyStr p.query = true := by
      rw [hq]
      simp [truthyStr, hqne]
    have hgd : p.query.getD "" = q := by rw [hq]; rfl
    have hmid2 : ¬ truthyStr p.memoryId = true := by rw [hmid]; decide
    by_cases h3 : 0 < (recallMems cfg db
        { query := q, limit := some 100, filterNoise := some false }).length
    · have hbranch : forget cfg db p =
          (db.length - (db.filter (fun m =>
              !(((recallMems cfg db
                { query := q, limit := some 100, filterNoise := some false }).map
                  (fun m => m.id)).contains m.id))).length,
            db.filter (fun m =>
              !(((recallMems cfg db
                { query := q, limit := some 100, filterNoise := some false }).map
                  (fun m => m.id)).contains m.id))) := by
        unfold forget
        rw [if_neg hmid2, hgd, if_pos ht, if_pos h3]
      rw [hbranch]
      exact ⟨rfl, rfl⟩
    · have hempty : (recallMems cfg db
          { query := q, limit := some 100, filterNoise := some false }) = [] := by
        rcases List.eq_nil_or_concat (recallMems cfg db
          { query := q, limit := some 100, filterNoise := some false }) with he | ⟨l2, a, he⟩
        · exact he
        · rw [he] at h3
          simp at h3
      have hbranch : forget cfg db p = (0, db) := by
        unfold forget
        rw [if_neg hmid2, hgd, if_pos ht, if_neg h3]
      rw [hbranch, hempty]
      constructor
      · symm
        refine List.filter_eq_self.mpr ?_
        intro m _
        simp [List.contains]
      · simp
  · intro cfg db p hmid hq
    have hmid2 : ¬ truthyStr p.memoryId = true := by rw [hmid]; decide
    have hq2 : ¬ truthyStr p.query = true := by rw [hq]; decide
    unfold forget
    rw [if_neg hmid2, if_neg hq2]

/-- Witness for C6: deletion by id and by query on the three-record store,
with every hypothesis discharged concretely. -/
theorem forget_semantics_witness :
    ((forget DEFAULT_CONFIG dbTiny { memoryId := some "t2" }).2 =
        dbTiny.filter (fun m => !(m.id == "t2"))
      ∧ (((dbTiny.map (fun m => m.id)).Nodup → (∃ m ∈ dbTiny, m.id = "t2") →
          (forget DEFAULT_CONFIG dbTiny { memoryId := some "t2" }).1 = 1))
      ∧ ((∀ m ∈ dbTiny, m.id ≠ "t2") →
          forget DEFAULT_CONFIG dbTiny { memoryId := some "t2" } = (0, dbTiny)))
    ∧ (forget DEFAULT_CONFIG dbTiny {} = (0, dbTiny)) :=
  ⟨forget_semantics.2.1 DEFAULT_CONFIG dbTiny { memoryId := some "t2" } "t2" rfl
      (by decide),
    forget_semantics.2.2.2 DEFAULT_CONFIG dbTiny {} (by decide) (by decide)⟩

/-! ### Claim C7: store/recall round trip -/

/-- C7 (amended): a freshly stored record is among the results of an
immediate recall whose query has at least one surviving token occurring in
the record's lowercased text as a substring, provided the record survived
eviction, the record is not a noise match (or filtering is off), and at
most limit records of the store match the query. -/
theorem store_recall_roundtrip (cfg : Config) (db : List Memory) (id now q : String)
    (sp : StoreParams) (fn : Option Bool)
    (hmem : (store cfg db id now sp).1 ∈ (store cfg db id now sp).2)
    (htok : ∃ w ∈ queryTokens q,
      substrChars w.data (store cfg db id now sp).1.textLower.data = true)
    (hnoise : fn = some false ∨ isNoise cfg (store cfg db id now sp).1.text = false)
    (hcount : ((store cfg db id now sp).2.filter
        (matchesConds { query := q, filterNoise := fn })).length ≤
        effLimit { query := q, filterNoise := fn }) :
    (store cfg db id now sp).1 ∈
      recallMems cfg (store cfg db id now sp).2 { query := q, filterNoise := fn } := by
  set m := (store cfg db id now sp).1 with hm
  set db2 := (store cfg db id now sp).2 with hdb2
  set p : RecallParams := { query := q, filterNoise := fn } with hp
  have hmatch : matchesConds p m = true := by
    refine (matchesConds_iff p m).mpr ⟨?_, ?_, ?_, ?_⟩
    · intro _
      obtain ⟨w, hw, hsub⟩ := htok
      exact ⟨w, hw, substr_implies_like w.data m.textLower.data hsub⟩
    · intro c hc
      simp [hp] at hc
    · intro d hd
      simp [hp] at hd
    · intro d hd
      simp [hp] at hd
  have hmf : m ∈ db2.filter (matchesConds p) := List.mem_filter.mpr ⟨hmem, hmatch⟩
  have hms : m ∈ List.insertionSort RankLE (db2.filter (matchesConds p)) :=
    (List.mem_insertionSort RankLE).mpr hmf
  have hslen : (List.insertionSort RankLE (db2.filter (matchesConds p))).length =
      (db2.filter (matchesConds p)).length :=
    (List.perm_insertionSort RankLE _).length_eq
  have hfetch : fetchRows db2 p = List.insertionSort RankLE (db2.filter (matchesConds p)) := by
    unfold fetchRows
    refine List.take_of_length_le ?_
    rw [hslen]
    omega
  have hmfetch : m ∈ fetchRows db2 p := by rw [hfetch]; exact hms
  have hkeep : m ∈ keepAfterNoise cfg p (fetchRows db2 p) := by
    by_cases hfn : p.filterNoise = some false
    · rw [keepAfterNoise_of_false cfg p _ hfn]
      exact hmfetch
    · have hnf : isNoise cfg m.text = false := by
        rcases hnoise with hfalse | hnf
        · exact absurd (by rw [hp, hfalse]) hfn
        · exact hnf
      rw [keepAfterNoise_of_not_false cfg p _ hfn]
      refine List.mem_filter.mpr ⟨hmfetch, ?_⟩
      simp [hnf]
  have hkeeplen : (keepAfterNoise cfg p (fetchRows db2 p)).length ≤ effLimit p := by
    have h1 := (keepAfterNoise_sublist cfg p (fetchRows db2 p)).length_le
    have h2 : (fetchRows db2 p).length ≤ effLimit p := by
      rw [hfetch, hslen]
      exact hcount
    omega
  show m ∈ (keepAfterNoise cfg p (fetchRows db2 p)).take (effLimit p)
  rw [List.take_of_length_le hkeeplen]
  exact hkeep

/-- C7 counterexample: the record stored with text ok is matched by the
query ok (a single surviving token of length 2, and a case-insensitive
substring of the text), yet an immediate recall with that query and default
parameters returns nothing, because the default noise filter suppresses the
record. -/
theorem store_recall_roundtrip_counterexample :
    (store DEFAULT_CONFIG [] "i1" "t1" { text := "ok" }).1.text = "ok"
    ∧ queryTokens "ok" = ["ok"]
    ∧ substrChars ("ok" : String).data
        (store DEFAULT_CONFIG [] "i1" "t1" { text := "ok" }).1.textLower.data = true
    ∧ (store DEFAULT_CONFIG [] "i1" "t1" { text := "ok" }).1 ∈
        (store DEFAULT_CONFIG [] "i1" "t1" { text := "ok" }).2
    ∧ recallMems DEFAULT_CONFIG (store DEFAULT_CONFIG [] "i1" "t1" { text := "ok" }).2
        { query := "ok" } = [] := by
  decide

/-- Witness for C7: the amended round trip applied to a concrete store of
one record with text Hello World and the query hello. -/
theorem store_recall_roundtrip_witness :
    (store DEFAULT_CONFIG [] "i1" "t1" { text := "Hello World" }).1 ∈
      recallMems DEFAULT_CONFIG
        (store DEFAULT_CONFIG [] "i1" "t1" { text := "Hello World" }).2
        { query := "hello", filterNoise := none } :=
  store_recall_roundtrip DEFAULT_CONFIG [] "i1" "t1" "hello" { text := "Hello World" } none
    (by decide) ⟨"hello", by decide, by decide⟩ (Or.inr (by decide)) (by decide)

/-! ### Claim C8: field invariants -/

/-- The per-record invariants of the spec's data model: the lowercased text
column caches the lowercase of the text, and the update timestamp equals
the creation timestamp. -/
def WFMem (m : Memory) : Prop :=
  m.textLower = lowerStr m.text ∧ m.updatedAt = m.createdAt

theorem prune_subset (cfg : Config) (l : List Memory) {m : Memory}
    (h : m ∈ pruneOldMemories cfg l) : m ∈ l := by
  unfold pruneOldMemories at h
  by_cases hc : cfg.maxMemories < statsTotal l
  · rw [if_pos hc] at h
    exact List.mem_of_mem_filter h
  · rw [if_neg hc] at h
    exact h

theorem forget_subset (cfg : Config) (db : List Memory) (p : ForgetParams) {m : Memory}
    (h : m ∈ (forget cfg db p).2) : m ∈ db := by
  unfold forget at h
  by_cases h1 : truthyStr p.memoryId = true
  · rw [if_pos h1] at h
    exact List.mem_of_mem_filter h
  · rw [if_neg h1] at h
    by_cases h2 : truthyStr p.query = true
    · rw [if_pos h2] at h
      by_cases h3 : 0 < (recallMems cfg db
          { query := p.query.getD "", limit := some 100,
            filterNoise := some false }).length
      · rw [if_pos h3] at h
        exact List.mem_of_mem_filter h
      · rw [if_neg h3] at h
        exact h
    · rw [if_neg h2] at h
      exact h

/-- C8: every record built by store satisfies textLower = lowercase text and
updatedAt = createdAt (both set at insert); store preserves the invariant
across the whole table, and recall and forget only return or keep records
already in the table (no operation updates a record in place), so the
invariant holds for every persisted record. -/
theorem record_field_invariants :
    (∀ cfg id now sp, WFMem (mkMemory cfg id now sp))
    ∧ (∀ cfg db id now sp, WFMem (store cfg db id now sp).1)
    ∧ (∀ cfg db id now sp, (∀ m ∈ db, WFMem m) →
        ∀ m ∈ (store cfg db id now sp).2, WFMem m)
    ∧ (∀ cfg db p m, m ∈ recallMems cfg db p → m ∈ db)
    ∧ (∀ cfg db p m, m ∈ (forget cfg db p).2 → m ∈ db) := by
  refine ⟨fun cfg id now sp => ⟨rfl, rfl⟩, fun cfg db id now sp => ⟨rfl, rfl⟩, ?_,
    fun cfg db p m => recallMems_subset cfg db p,
    fun cfg db p m => forget_subset cfg db p⟩
  intro cfg db id now sp hdb m hm
  have hall : m ∈ db ++ [mkMemory cfg id now sp] := prune_subset cfg _ hm
  rcases List.mem_append.mp hall with hin | hnew
  · exact hdb m hin
  · rw [List.mem_singleton.mp hnew]
    exact ⟨rfl, rfl⟩

/-- Witness for C8: preservation applied to a one-record store, and the
recall subset law applied to a concrete matching recall. -/
theorem record_field_invariants_witness :
    WFMem (store DEFAULT_CONFIG [] "i1" "t1" { text := "Hello" }).1
    ∧ mOk ∈ [mOk] :=
  ⟨record_field_invariants.2.1 DEFAULT_CONFIG [] "i1" "t1" { text := "Hello" },
    record_field_invariants.2.2.2.1 DEFAULT_CONFIG [mOk]
      { query := "ok", filterNoise := some false } mOk (by decide)⟩

/-! ### Claim C9: the not-initialized guard -/

/-- C9: with a null database handle — the state before a successful init and
the state after close — store, recall, forget and stats all fail with the
not-initialized error and leave the state unchanged; the initial state and
every closed state have a null handle, so no operation runs in the
Uninitialized or Closed states. -/
theorem not_initialized_guard (cfg : Config) (st : PluginState) (id now : String)
    (sp : StoreParams) (p : RecallParams) (fp : ForgetParams)
    (h : st.db = none) :
    storeOp cfg st id now sp = (Except.error notInitMsg, st)
    ∧ recallOp cfg st p = (Except.error notInitMsg, st)
    ∧ forgetOp cfg st fp = (Except.error notInitMsg, st)
    ∧ statsOp st = (Except.error notInitMsg, st)
    ∧ initialState.db = none
    ∧ (∀ st2 : PluginState, (closeOp st2).db = none) := by
  refine ⟨?_, ?_, ?_, ?_, rfl, fun st2 => rfl⟩
  · simp only [storeOp, h]
  · simp only [recallOp, h]
  · simp only [forgetOp, h]
  · simp only [statsOp, h]

/-- Witness for C9: the guard applied to the initial (uninitialized) state
and, through closeOp, to a closed state. -/
theorem not_initialized_guard_witness :
    storeOp DEFAULT_CONFIG (closeOp (initOp none)) "i1" "t1" { text := "x" } =
      (Except.error notInitMsg, closeOp (initOp none))
    ∧ recallOp DEFAULT_CONFIG initialState { query := "" } =
        (Except.error notInitMsg, initialState) :=
  ⟨(not_initialized_guard DEFAULT_CONFIG (closeOp (initOp none)) "i1" "t1"
      { text := "x" } { query := "" } {} rfl).1,
    (not_initialized_guard DEFAULT_CONFIG initialState "i1" "t1"
      { text := "x" } { query := "" } {} rfl).2.1⟩

/-! ### Claim C10: a limit of 0 falls back to the default 5 -/

/-- C10: an explicit limit of 0 is falsy in JavaScript, so recall behaves
exactly as with the default limit 5 (and an omitted limit also yields 5);
in particular a store of three matching records returns all three rather
than an empty sequence. -/
theorem recall_limit_zero_defaults :
    (∀ cfg db p, p.limit = some 0 →
      effLimit p = 5 ∧ recallMems cfg db p = recallMems cfg db { p with limit := some 5 })
    ∧ (∀ p, p.limit = none → effLimit p = 5)
    ∧ (recallMems DEFAULT_CONFIG dbTiny { query := "", limit := some 0 }).length = 3 := by
  refine ⟨?_, ?_, by decide⟩
  · intro cfg db p h
    obtain ⟨q, lim, cat, df, dt, fn⟩ := p
    simp only [] at h
    subst h
    exact ⟨rfl, rfl⟩
  · intro p h
    obtain ⟨q, lim, cat, df, dt, fn⟩ := p
    simp only [] at h
    subst h
    rfl

/-- Witness for C10: the zero-limit law applied to the three-record store. -/
theorem recall_limit_zero_defaults_witness :
    effLimit { query := "", limit := some 0 } = 5
    ∧ recallMems DEFAULT_CONFIG dbTiny { query := "", limit := some 0 } =
        recallMems DEFAULT_CONFIG dbTiny { query := "", limit := some 5 } :=
  recall_limit_zero_defaults.1 DEFAULT_CONFIG dbTiny { query := "", limit := some 0 } rfl

end Moltbot

